import Mathlib

/-!
Verification development for the Multi-Document RAG Chatbot repository
(`main.py`, `backend_utils.py`, `app.py`, `frontend_utils.py`).

The Python code is shallowly embedded: pure logic becomes Lean functions,
the Pinecone index becomes an explicit state (a list of namespaced
records), and every external effect (the JSON parser outcome, the LLM
output, the document loaders, the embedding service, per-batch upsert
failures, generated UUIDs, HTTP responses) is passed in as an explicit
argument, so the handlers are total functions of their inputs plus the
behaviour of their collaborators.  Python exceptions are `Except` values:
an uncaught exception propagates to the request boundary.
-/

namespace RagChatbot

/-- Python values produced by `json.loads`: JSON null / bool / number /
string / array / object.  Numbers are modelled as integers (no claim
depends on float arithmetic).  An object is an association list; Python
dicts decoded from JSON have unique keys. -/
inductive Json where
  | null
  | bool (b : Bool)
  | num (n : Int)
  | str (s : String)
  | arr (elems : List Json)
  | obj (fields : List (String × Json))

/-- `d.get(k, default)` on a decoded JSON object (association-list lookup,
first match; keys of a decoded dict are unique). -/
def getd (fields : List (String × Json)) (k : String) (default : Json) : Json :=
  match fields.find? (fun p => p.1 = k) with
  | some p => p.2
  | none => default

/-- The outcome of `json.loads(llm_output_str)` for one candidate:
either it raises an exception that the per-candidate handler catches
(`json.JSONDecodeError` on malformed input, or `TypeError`), or it
returns a decoded Python value. -/
inductive ParseOutcome where
  | decodeError
  | value (j : Json)

/-- Python exceptions that escape the per-candidate `try`/`except` in
`ask_question` (main.py): `response_data.get(...)` on a decoded value
that is not a dict raises `AttributeError`, which is not in
`except (json.JSONDecodeError, TypeError)`. -/
inductive PyExn where
  | attributeError
deriving Repr, DecidableEq

/-- One entry of the `candidates` list built by `ask_question`
(main.py lines 85-95): the three keys of the response dict.  `answer`
is whatever `response_data.get("answer", ...)` returned, so it is an
arbitrary JSON value. -/
structure Candidate where
  answer : Json
  reasoning : Json
  source_documents : Json

/-- Default used by `response_data.get("answer", {"summary": "Could not
parse answer.", "data": None})` in main.py line 86. -/
def defaultAnswer : Json :=
  .obj [("summary", .str "Could not parse answer."), ("data", .null)]

/-- The sentinel candidate appended in the `except` branch of
`ask_question` (main.py lines 90-95). -/
def sentinelCandidate (raw : String) : Candidate :=
  { answer := .obj [("summary", .str "The model returned an invalid JSON response."),
                    ("data", .str raw)]
    reasoning := .str "The model's output could not be parsed as JSON."
    source_documents := .arr [] }

/-- The per-candidate `try`/`except` body of `ask_question` (main.py
lines 83-95): `json.loads` the raw output; on `JSONDecodeError`/`TypeError`
append the sentinel candidate; on a decoded dict extract the three keys
with defaults.  On a decoded value that is NOT a dict, `.get` raises
`AttributeError`, which the `except` clause does not catch, so the
exception propagates (`Except.error`). -/
def buildCandidate (raw : String) (outcome : ParseOutcome) : Except PyExn Candidate :=
  match outcome with
  | .decodeError => .ok (sentinelCandidate raw)
  | .value (.obj fields) =>
      .ok { answer := getd fields "answer" defaultAnswer
            reasoning := getd fields "reasoning" (.str "Could not parse reasoning.")
            source_documents := getd fields "source_documents" (.arr []) }
  | .value _ => .error .attributeError

/-- A parse outcome is benign when feeding it to the per-candidate
handler cannot raise an uncaught exception: it is either a decode
failure (caught, sentinel) or a decoded dict. -/
def ParseOutcome.benign : ParseOutcome → Prop
  | .decodeError => True
  | .value (.obj _) => True
  | .value _ => False

instance : DecidablePred ParseOutcome.benign := fun o =>
  match o with
  | .decodeError => .isTrue trivial
  | .value (.obj _) => .isTrue trivial
  | .value .null => .isFalse id
  | .value (.bool _) => .isFalse id
  | .value (.num _) => .isFalse id
  | .value (.str _) => .isFalse id
  | .value (.arr _) => .isFalse id

/-- One vector record as built in `create_and_store_embeddings`
(backend_utils.py lines 143-147): `{"id": ..., "values": ...,
"metadata": {"text": ..., "filename": ...}}`.  Embedding vectors are
opaque to every claim, so their entries are plain integers. -/
structure VectorRecord where
  id : String
  values : List Int
  metadata_text : String
  metadata_filename : String
deriving Repr, DecidableEq

/-- Modelled from the spec: the Pinecone index is an external service
(its client library is not part of this repository's sources).  Its
state is the list of records it holds, each tagged with the namespace
it was upserted under (spec §4.3, §3 "Vector Record"). -/
abbrev IndexState := List (String × VectorRecord)

/-- Modelled from the spec: upserting one record under a namespace has
overwrite semantics — a record whose `(namespace, id)` pair is already
present replaces the old record in place, otherwise the record is
appended (spec §3: colliding identifiers overwrite "rather than
unbounded duplication"). -/
def upsertOne (st : IndexState) (ns : String) (r : VectorRecord) : IndexState :=
  match st with
  | [] => [(ns, r)]
  | (ns', r') :: rest =>
      if ns' = ns ∧ r'.id = r.id then (ns, r) :: rest
      else (ns', r') :: upsertOne rest ns r

/-- The `(namespace, id)` keys of the index state. -/
def keysOf (st : IndexState) : List (String × String) :=
  st.map (fun p => (p.1, p.2.id))

/-- Modelled from the spec: `index.query(..., top_k, namespace)` returns
only records stored under the given namespace, at most `top_k` of them,
and an empty result (not an error) when the namespace holds no data
(spec §4.3).  Similarity ranking is performed by the external service
and is not modelled; no claim depends on the order of matches. -/
def queryIndex (st : IndexState) (ns : String) (top_k : Nat) : List VectorRecord :=
  ((st.filter (fun p => p.1 == ns)).map Prod.snd).take top_k

/-- The list comprehension of backend_utils.py lines 143-147:
`enumerate(zip(text_chunks, doc_embeddings))` starting at index `i`,
each element becoming a record with id `f"chunk_{filename}_{i}"` and
metadata `{"text": chunk, "filename": filename}`.  `zip` truncates to
the shorter list, as in Python. -/
def mkVectors (filename : String) : Nat → List String → List (List Int) → List VectorRecord
  | _, [], _ => []
  | _, _ :: _, [] => []
  | i, chunk :: cs, emb :: es =>
      { id := "chunk_" ++ filename ++ "_" ++ toString i
        values := emb
        metadata_text := chunk
        metadata_filename := filename } :: mkVectors filename (i + 1) cs es

/-- Structural worker for `toBatches`: the fuel only serves totality
(each slice consumes at least one element, so `l.length` units of fuel
always suffice) and never affects the result in the reachable regime,
as `toBatchesAux_congr` proves. -/
def toBatchesAux : Nat → List VectorRecord → List (List VectorRecord)
  | _, [] => []
  | 0, _ :: _ => []
  | fuel + 1, x :: xs => (x :: xs).take 100 :: toBatchesAux fuel ((x :: xs).drop 100)

/-- `range(0, len(vectors_to_upsert), batch_size)` slicing with
`batch_size = 100` (backend_utils.py lines 149-152): the list split
into consecutive slices of 100 (last one possibly shorter). -/
def toBatches (l : List VectorRecord) : List (List VectorRecord) :=
  toBatchesAux l.length l

/-- Helper for `upsertOne` iterated over a batch (one
`pc_index.upsert(vectors=batch, namespace=namespace)` call). -/
def upsertBatch (st : IndexState) (ns : String) (batch : List VectorRecord) : IndexState :=
  batch.foldl (fun s r => upsertOne s ns r) st

/-- The batch loop of backend_utils.py lines 151-157: batch number
`bi = i // batch_size`; a batch whose upsert call raises (injected
through `failBatches`) is caught by the per-batch `except`, logged and
skipped, leaving the index state unchanged for that batch. -/
def upsertBatches (ns : String) (failBatches : List Nat) :
    IndexState → Nat → List (List VectorRecord) → IndexState
  | st, _, [] => st
  | st, bi, b :: bs =>
      upsertBatches ns failBatches
        (if bi ∈ failBatches then st else upsertBatch st ns b) (bi + 1) bs

/-- `create_and_store_embeddings(text_chunks, namespace, filename, pc_index,
embeddings_model)` (backend_utils.py lines 139-158).  The external
embedding call `embeddings_model.embed_documents(text_chunks)` is passed
in as `embedResult`; if it raises, the exception propagates (nothing in
the function catches it) with the index state untouched.  Otherwise the
records are built and upserted in batches of 100, failed batches being
skipped.  The Python function has no `return` statement: it returns
`None`, modelled as the `Option Int` component being `none`. -/
def create_and_store_embeddings (text_chunks : List String) (ns filename : String)
    (st : IndexState) (embedResult : Except Unit (List (List Int)))
    (failBatches : List Nat) : Except Unit (IndexState × Option Int) :=
  match embedResult with
  | .error e => .error e
  | .ok doc_embeddings =>
      let vectors_to_upsert := mkVectors filename 0 text_chunks doc_embeddings
      .ok (upsertBatches ns failBatches st 0 (toBatches vectors_to_upsert), none)

/-- Structural worker for `chunkCore`: the fuel only serves totality
(each step consumes 800 characters, so `cs.length` units always
suffice) and never affects the result in the reachable regime, as
`chunkAux_congr` proves. -/
def chunkAux : Nat → List Char → List (List Char)
  | 0, cs => [cs]
  | fuel + 1, cs =>
      if cs.length ≤ 1000 then [cs]
      else cs.take 1000 :: chunkAux fuel (cs.drop 800)

/-- Modelled from the spec: `get_text_chunks` delegates to LangChain's
`RecursiveCharacterTextSplitter(chunk_size=1000, chunk_overlap=200)`,
library code that is not part of this repository's sources.  Following
spec §4.1 the splitter is modelled as a sliding window: windows of
1000 characters advancing by 800, so consecutive chunks share a
200-character overlap.  (The spec's soft preference for natural
paragraph/sentence/word boundaries is not modelled; no claimed
property depends on it.) -/
def chunkCore (cs : List Char) : List (List Char) :=
  chunkAux cs.length cs

/-- Modelled from the spec: `get_text_chunks(raw_text)`
(backend_utils.py lines 134-137) with chunk size 1000 and overlap 200;
empty input yields the empty sequence (spec §4.1). -/
def get_text_chunks (raw_text : String) : List String :=
  if raw_text.data = [] then [] else (chunkCore raw_text.data).map String.mk

/-- The extensions dispatched on in backend_utils.py lines 124-128. -/
def supportedExts : List String := [".pdf", ".docx", ".txt", ".csv", ".xls", ".xlsx"]

/-- `str.lower()` as applied to the file extension (backend_utils.py
line 123): character-wise ASCII lowercasing.  (`String.toLower` of the
Lean core library is extensionally the same map but is defined through
a well-founded recursion that the kernel cannot evaluate, so the map
is spelled out over the character list.) -/
def lowerString (s : String) : String := String.mk (s.data.map Char.toLower)

/-- `os.path.splitext(file.filename)[1]`: the extension starting at the
last dot, or `""` when the name has no dot.  (splitext's special case
for names consisting only of leading dots is elided; no claim uses
such a name.) -/
def extOf (filename : String) : String :=
  let cs := filename.data
  if cs.contains '.' then
    String.mk ('.' :: (cs.reverse.takeWhile (fun c => c ≠ '.')).reverse)
  else ""

/-- `get_text_from_file(file)` (backend_utils.py lines 116-132).  The
external document loaders (PyPDFLoader, Docx2txtLoader, TextLoader,
pandas) are passed in as `loader`: the text they extract from the
file's bytes, or an exception, which nothing in the function catches
(the `try` has only a `finally`), so it propagates.  A filename whose
lower-cased extension is not dispatched on returns `None` without
consulting any loader. -/
def get_text_from_file (filename : String) (loader : Except Unit String) :
    Except Unit (Option String) :=
  if lowerString (extOf filename) ∈ supportedExts then
    match loader with
    | .ok text => .ok (some text)
    | .error e => .error e
  else .ok none

/-- One uploaded file together with the behaviour of the external
services invoked for it: what its document loader extracts,
what `embed_documents` returns for its chunks, and which of its upsert
batches fail. -/
structure UFile where
  filename : String
  loader : Except Unit String
  embedResult : Except Unit (List (List Int))
  failBatches : List Nat

/-- The `for file in files` loop of main.py lines 47-54, run inside the
single `try` of the handler: a file whose extraction returns `None` is
skipped with `continue`; an exception raised by extraction or by
`create_and_store_embeddings` (i.e. by `embed_documents`) escapes the
loop at once, abandoning the remaining files while keeping everything
already upserted; a processed file's name is appended to
`processed_files`. -/
def uploadLoop (session_id : String) :
    IndexState → List String → List UFile → IndexState × Except Unit (List String)
  | st, acc, [] => (st, .ok acc)
  | st, acc, f :: rest =>
      match get_text_from_file f.filename f.loader with
      | .error _ => (st, .error ())
      | .ok none => uploadLoop session_id st acc rest
      | .ok (some raw_text) =>
          match create_and_store_embeddings (get_text_chunks raw_text) session_id
              f.filename st f.embedResult f.failBatches with
          | .error _ => (st, .error ())
          | .ok (st', _) => uploadLoop session_id st' (acc ++ [f.filename]) rest

/-- The three responses `upload_documents` can produce: 400 when files
or session id are missing, 200 with the processed-files list, 500 when
an exception reached the handler's `except`. -/
inductive UploadResult where
  | badRequest
  | ok (processed_files : List String)
  | serverError
deriving Repr, DecidableEq

/-- `upload_documents(files, session_id)` (main.py lines 39-59). -/
def upload_documents (files : List UFile) (session_id : String) (st : IndexState) :
    IndexState × UploadResult :=
  if files.isEmpty ∨ session_id = "" then (st, .badRequest)
  else
    match uploadLoop session_id st [] files with
    | (st', .ok processed) => (st', .ok processed)
    | (st', .error _) => (st', .serverError)

/-- Which of the two prompt templates of `get_rag_prompts`
(backend_utils.py lines 50-105) is fed to the LLM chain:
`rag_prompt` when `context_docs` is non-empty, `no_context_prompt`
otherwise (main.py line 79). -/
inductive Mode where
  | withContext
  | noContext
deriving Repr, DecidableEq

/-- One entry of the `sources` list of main.py line 73. -/
structure Source where
  content : String
  filename : String
deriving Repr, DecidableEq

/-- The arguments of the `index.query(...)` call of main.py line 69
that the claims talk about. -/
structure QueryCall where
  ns : String
  top_k : Nat
deriving Repr, DecidableEq

/-- The responses `ask_question` can produce: 400 when question or
session id is missing, 200 with `{"candidates": ..., "sources": ...}`,
500 when an exception reached the handler's `except`. -/
inductive AskResult where
  | badRequest
  | ok (candidates : List Candidate) (sources : List Source)
  | serverError

/-- HTTP status code of an `AskResult`. -/
def AskResult.status : AskResult → Nat
  | .badRequest => 400
  | .ok _ _ => 200
  | .serverError => 500

/-- The sampling temperatures of the `for temp in [0.2, 0.7, 1.0]` loop
(main.py line 76), as exact rationals. -/
def tempList : List ℚ := [2/10, 7/10, 1]

/-- The `for temp in [0.2, 0.7, 1.0]` loop of main.py lines 76-95,
running inside the handler's single `try`: each iteration appends one
candidate; an uncaught exception aborts the loop at once (the
candidates accumulated so far are discarded by the 500 response). -/
def candidateLoop (f : ℚ → Except PyExn Candidate) : List ℚ → Except PyExn (List Candidate)
  | [] => .ok []
  | t :: ts =>
      match f t with
      | .error e => .error e
      | .ok c =>
          match candidateLoop f ts with
          | .error e => .error e
          | .ok cs => .ok (c :: cs)

/-- Observable outcome of one `/ask` request: the HTTP response, the
arguments of the vector-index query call (if one was made), and the
prompt mode selected (if the handler got that far). -/
structure AskTrace where
  result : AskResult
  query_call : Option QueryCall
  mode : Option Mode

/-- `ask_question(question, session_id)` (main.py lines 61-100).
External behaviour is passed in: `st` is the vector-index state,
`loads` gives the `json.loads` outcome for a raw model output, and
`llmRaw` gives the raw string the LLM chain returns for a given prompt
template and temperature.  (The question embedding of line 67 only
feeds the external similarity ranking, which `queryIndex` does not
model.)  The candidate loop runs inside the handler's single `try`:
an uncaught `AttributeError` from one candidate aborts the loop and
yields the 500 response of the outer `except`. -/
def ask_question (question session_id : String) (st : IndexState)
    (loads : String → ParseOutcome) (llmRaw : Mode → ℚ → String) : AskTrace :=
  if question = "" ∨ session_id = "" then
    { result := .badRequest, query_call := none, mode := none }
  else
    let matchList := queryIndex st session_id 10
    let sources := matchList.map
      (fun r => { content := r.metadata_text, filename := r.metadata_filename : Source })
    let mode := if matchList.isEmpty then Mode.noContext else Mode.withContext
    match candidateLoop (fun t => buildCandidate (llmRaw mode t) (loads (llmRaw mode t))) tempList with
    | .ok cands =>
        { result := .ok cands sources, query_call := some ⟨session_id, 10⟩, mode := some mode }
    | .error _ =>
        { result := .serverError, query_call := some ⟨session_id, 10⟩, mode := some mode }

/-- The Streamlit session-state fields that the upload flow touches. -/
structure FrontendState where
  session_id : String
  processed_files : List String
deriving Repr, DecidableEq

/-- Outcome of the `requests.post(.../upload, ...)` call inside
`call_upload_api`: a 200 response whose JSON carries
`processed_files`, or anything else (non-200 status or a connection
error — both leave the session state unchanged). -/
inductive UploadApiResp where
  | success (processed_files : List String)
  | failure
deriving Repr, DecidableEq

/-- `call_upload_api(files)` (frontend_utils.py lines 28-42).  The
freshly generated `str(uuid.uuid4())` is passed in as
`new_session_id`; the function posts the upload under that id and
returns `(response-json-or-None, session id to adopt)`: the new id on
success, the previously stored id otherwise. -/
def call_upload_api (st : FrontendState) (new_session_id : String)
    (resp : UploadApiResp) : Option (List String) × String :=
  match resp with
  | .success processed => (some processed, new_session_id)
  | .failure => (none, st.session_id)

/-- `handle_file_upload(uploaded_files)` (app.py lines 14-23): on a
successful upload, the stored session id and processed-files list are
replaced by what `call_upload_api` returned; otherwise the state is
left unchanged. -/
def handle_file_upload (st : FrontendState) (new_session_id : String)
    (resp : UploadApiResp) : FrontendState :=
  match call_upload_api st new_session_id resp with
  | (some processed, sid) => { st with session_id := sid, processed_files := processed }
  | (none, _) => st

/-- The `candidates` list of a 200 response (empty for error responses). -/
def AskResult.candidatesOf : AskResult → List Candidate
  | .ok cands _ => cands
  | _ => []

/-- The `sources` list of a 200 response (empty for error responses). -/
def AskResult.sourcesOf : AskResult → List Source
  | .ok _ sources => sources
  | _ => []

/-- The prompt mode `ask_question` selects for a given index state and
session id (main.py line 79): the fallback prompt exactly when the
query returned zero matches. -/
def modeOf (st : IndexState) (session_id : String) : Mode :=
  if (queryIndex st session_id 10).isEmpty then .noContext else .withContext

/-- A `json.loads` behaviour under which the raw output `"[1, 2, 3]"`
decodes to the JSON array `[1, 2, 3]` — exactly what Python's
`json.loads` returns on that string — and every other output is
malformed. -/
def c1Loads : String → ParseOutcome := fun s =>
  if s = "[1, 2, 3]" then .value (.arr [.num 1, .num 2, .num 3]) else .decodeError

/-- LLM outputs for the C1 failing request: the calls return the
valid-JSON-but-not-an-object string `"[1, 2, 3]"`. -/
def c1LlmRaw : Mode → ℚ → String := fun _ _ => "[1, 2, 3]"

/-- A decoded model output in no-context mode that ignores the fallback
prompt's instructions: structured data present and a source document
cited. -/
def c9Json : Json :=
  .obj [("answer", .obj [("summary", .str "Certainly!"), ("data", .num 1)]),
        ("reasoning", .str "Used the documents."),
        ("source_documents", .arr [.str "f.pdf"])]

/-- A `json.loads` behaviour decoding every output to `c9Json`. -/
def c9Loads : String → ParseOutcome := fun _ => .value c9Json

/-- The overlap relation between two consecutive chunks: the last 200
characters of the first chunk are exactly the first 200 characters of
the second, and that shared region is non-empty. -/
def overlapR (a b : List Char) : Prop := a.drop 800 = b.take 200 ∧ a.drop 800 ≠ []

/-- The Python value `create_and_store_embeddings` returns to its
caller (`None`, since the function body has no `return`), or `none`
when the call raised instead of returning. -/
def ingestReturn : Except Unit (IndexState × Option Int) → Option Int
  | .ok (_, v) => v
  | .error _ => none

/-- The index state after a `create_and_store_embeddings` call
(unchanged by a call that raised before upserting anything — here the
caller's state is not available, so the raising case is the empty
index, unused by any theorem). -/
def ingestState : Except Unit (IndexState × Option Int) → IndexState
  | .ok (st, _) => st
  | .error _ => []

/-- The concrete scenario of the claim: 250 chunks ingested into an
empty index, the second of the three upsert batches failing. -/
def c3Result : Except Unit (IndexState × Option Int) :=
  create_and_store_embeddings (List.replicate 250 "c") "s" "f" []
    (.ok (List.replicate 250 [1])) [1]

/-- A file whose external services behave: its loader extracts some
text (possibly empty) without raising, and `embed_documents` returns
without raising.  Nothing is assumed about its upsert batches. -/
def UFile.benign (f : UFile) : Prop :=
  (∃ s, f.loader = .ok s) ∧ (∃ e, f.embedResult = .ok e)

/-- Whether the file's lower-cased extension is one that
`get_text_from_file` dispatches on. -/
def UFile.isSupported (f : UFile) : Bool :=
  decide (lowerString (extOf f.filename) ∈ supportedExts)

/-- A text file that uploads cleanly. -/
def c2File1 : UFile := ⟨"good.txt", .ok "alpha", .ok [[1]], []⟩

/-- A text file whose `embed_documents` call raises. -/
def c2File2 : UFile := ⟨"bad.txt", .ok "beta", .error (), []⟩

/-- Another clean text file, uploaded after the failing one. -/
def c2File3 : UFile := ⟨"other.txt", .ok "gamma", .ok [[1]], []⟩

/-- An uploaded `.txt` file whose extracted text is empty. -/
def c4Empty : UFile := ⟨"empty.txt", .ok "", .ok [], []⟩

/-- A file of an unsupported format (extension `.xyz`). -/
def c4Unsupported : UFile := ⟨"notes.xyz", .ok "text", .ok [[1]], []⟩

/-- Value of a decimal digit character (proof device for the
injectivity of `Nat.repr`, which the uniqueness of the generated
vector-record identifiers rests on). -/
def valDigit (c : Char) : Nat := c.toNat - 48

/-- Decimal value of a digit string, starting from accumulator `a`
(proof device, see `valDigit`). -/
def valFrom (a : Nat) (cs : List Char) : Nat :=
  cs.foldl (fun x c => x * 10 + valDigit c) a

/-! ## Theorems -/

theorem buildCandidate_ok_of_benign (raw : String) (o : ParseOutcome)
    (h : o.benign) : ∃ c, buildCandidate raw o = .ok c := by
  cases o with
  | decodeError => exact ⟨_, rfl⟩
  | value j => cases j with
    | obj fields => exact ⟨_, rfl⟩
    | null => exact absurd h id
    | bool b => exact absurd h id
    | num n => exact absurd h id
    | str s => exact absurd h id
    | arr es => exact absurd h id

theorem toBatchesAux_nil (f : Nat) : toBatchesAux f [] = [] := by
  cases f <;> rfl

theorem toBatchesAux_congr (f : Nat) :
    ∀ (g : Nat) (l : List VectorRecord), l.length ≤ f → l.length ≤ g →
      toBatchesAux f l = toBatchesAux g l := by
  induction f with
  | zero =>
      intro g l hf _
      rw [List.eq_nil_of_length_eq_zero (Nat.le_zero.mp hf), toBatchesAux_nil,
        toBatchesAux_nil]
  | succ f ih =>
      intro g l hf hg
      cases l with
      | nil => rw [toBatchesAux_nil, toBatchesAux_nil]
      | cons x xs =>
          cases g with
          | zero => simp at hg
          | succ g =>
              simp only [toBatchesAux]
              rw [ih g ((x :: xs).drop 100) (by simp at hf ⊢; omega)
                (by simp at hg ⊢; omega)]

/-- The defining recurrence of `toBatches`, independent of fuel. -/
theorem toBatches_eq (l : List VectorRecord) :
    toBatches l = if l = [] then [] else l.take 100 :: toBatches (l.drop 100) := by
  cases l with
  | nil => rfl
  | cons x xs =>
      rw [if_neg (by simp)]
      show toBatchesAux (x :: xs).length (x :: xs) = _
      rw [toBatches]
      cases h : (x :: xs).length with
      | zero => simp at h
      | succ n =>
          simp only [toBatchesAux]
          rw [toBatchesAux_congr n ((x :: xs).drop 100).length ((x :: xs).drop 100)
            (by simp at h ⊢; omega) le_rfl]

theorem chunkAux_of_le : ∀ (f : Nat) (cs : List Char), cs.length ≤ 1000 →
    chunkAux f cs = [cs]
  | 0, _, _ => rfl
  | f + 1, cs, h => by
      simp only [chunkAux]
      rw [if_pos h]

theorem chunkAux_congr (f : Nat) :
    ∀ (g : Nat) (cs : List Char), cs.length ≤ 1000 + 800 * f →
      cs.length ≤ 1000 + 800 * g → chunkAux f cs = chunkAux g cs := by
  induction f with
  | zero =>
      intro g cs hf _
      rw [chunkAux_of_le 0 cs (by omega), chunkAux_of_le g cs (by omega)]
  | succ f ih =>
      intro g cs hf hg
      by_cases hle : cs.length ≤ 1000
      · rw [chunkAux_of_le _ _ hle, chunkAux_of_le _ _ hle]
      · cases g with
        | zero => exact absurd (by omega : cs.length ≤ 1000) hle
        | succ g =>
            simp only [chunkAux]
            rw [if_neg hle, if_neg hle,
              ih g (cs.drop 800) (by simp; omega) (by simp; omega)]

/-- The defining recurrence of `chunkCore`, independent of fuel. -/
theorem chunkCore_eq (cs : List Char) :
    chunkCore cs = if cs.length ≤ 1000 then [cs]
      else cs.take 1000 :: chunkCore (cs.drop 800) := by
  by_cases hle : cs.length ≤ 1000
  · rw [if_pos hle, chunkCore, chunkAux_of_le _ _ hle]
  · rw [if_neg hle, chunkCore]
    cases h : cs.length with
    | zero => omega
    | succ n =>
        simp only [chunkAux]
        rw [if_neg hle, chunkCore,
          chunkAux_congr n (cs.drop 800).length (cs.drop 800)
            (by simp; omega) (by simp; omega)]

theorem candidateLoop_ok (f : ℚ → Except PyExn Candidate) (l : List ℚ)
    (h : ∀ t ∈ l, ∃ c, f t = .ok c) :
    ∃ cs, candidateLoop f l = .ok cs ∧ List.Forall₂ (fun t c => f t = .ok c) l cs := by
  induction l with
  | nil => exact ⟨[], rfl, .nil⟩
  | cons t ts ih =>
      obtain ⟨c, hc⟩ := h t (by simp)
      obtain ⟨cs, hcs, hf⟩ := ih (fun t' ht' => h t' (by simp [ht']))
      exact ⟨c :: cs, by simp [candidateLoop, hc, hcs], .cons hc hf⟩

theorem ask_question_eq (question session_id : String) (st : IndexState)
    (loads : String → ParseOutcome) (llmRaw : Mode → ℚ → String)
    (hq : question ≠ "") (hs : session_id ≠ "") :
    ask_question question session_id st loads llmRaw =
      (match candidateLoop
          (fun t => buildCandidate (llmRaw (modeOf st session_id) t)
            (loads (llmRaw (modeOf st session_id) t))) tempList with
      | .ok cands =>
          { result := .ok cands ((queryIndex st session_id 10).map
              (fun r => { content := r.metadata_text, filename := r.metadata_filename : Source }))
            query_call := some ⟨session_id, 10⟩
            mode := some (modeOf st session_id) }
      | .error _ =>
          { result := .serverError
            query_call := some ⟨session_id, 10⟩
            mode := some (modeOf st session_id) }) := by
  rw [ask_question, if_neg (by simp [hq, hs])]
  rfl

/-- C1: claimed — an output that fails to parse as JSON OR parses to a
value of the wrong shape only replaces that one candidate with the
sentinel, and the request still returns all 3 candidates with a
success status.  The code violates the wrong-shape half: when one
candidate's output is `"[1, 2, 3]"` (valid JSON, not an object),
`response_data.get` raises `AttributeError`, which
`except (json.JSONDecodeError, TypeError)` does not catch, so the
whole request aborts with HTTP 500 and no candidates at all. -/
theorem ask_wrong_shape_output_aborts_request :
    (ask_question "q" "s" [] c1Loads c1LlmRaw).result.status = 500 ∧
    (ask_question "q" "s" [] c1Loads c1LlmRaw).result.candidatesOf = [] := by
  exact ⟨rfl, rfl⟩

/-- C7: for every question and session (with or without matches in the
namespace), provided no candidate's raw output decodes to a non-object
JSON value (the uncaught-`AttributeError` case recorded at C1), the
handler returns a 200 response carrying exactly 3 candidates, one per
sampling temperature of `[0.2, 0.7, 1.0]`, each candidate determined
by its own raw output alone. -/
theorem ask_produces_three_candidates (question session_id : String) (st : IndexState)
    (loads : String → ParseOutcome) (llmRaw : Mode → ℚ → String)
    (hq : question ≠ "") (hs : session_id ≠ "")
    (hben : ∀ t ∈ tempList, (loads (llmRaw (modeOf st session_id) t)).benign) :
    tempList = [0.2, 0.7, 1.0] ∧
    ∃ cands sources,
      (ask_question question session_id st loads llmRaw).result = .ok cands sources ∧
      cands.length = 3 ∧
      List.Forall₂
        (fun t c => buildCandidate (llmRaw (modeOf st session_id) t)
          (loads (llmRaw (modeOf st session_id) t)) = .ok c)
        tempList cands := by
  obtain ⟨cs, hcs, hf⟩ := candidateLoop_ok _ tempList
    (fun t ht => buildCandidate_ok_of_benign _ _ (hben t ht))
  have hres : (ask_question question session_id st loads llmRaw).result =
      .ok cs ((queryIndex st session_id 10).map
        (fun r => { content := r.metadata_text, filename := r.metadata_filename : Source })) := by
    rw [ask_question_eq _ _ _ _ _ hq hs, hcs]
  refine ⟨by norm_num [tempList], cs, _, hres, ?_, hf⟩
  have hlen := hf.length_eq
  simpa [tempList] using hlen.symm

/-- Witness for C7 at a concrete request: empty namespace, all three
outputs malformed — the response is a 200 carrying exactly 3
candidates. -/
theorem ask_produces_three_candidates_witness :
    tempList = [0.2, 0.7, 1.0] ∧
    (ask_question "q" "s" [] (fun _ => ParseOutcome.decodeError)
      (fun _ _ => "x")).result.candidatesOf.length = 3 ∧
    (ask_question "q" "s" [] (fun _ => ParseOutcome.decodeError)
      (fun _ _ => "x")).result.status = 200 := by
  obtain ⟨htemp, cands, sources, hres, hlen, _⟩ :=
    ask_produces_three_candidates "q" "s" [] (fun _ => .decodeError) (fun _ _ => "x")
      (by simp) (by simp) (fun t _ => trivial)
  rw [hres]
  exact ⟨htemp, hlen, rfl⟩

/-- C5: a session namespace holding no records — in particular a session
token under which nothing was ever uploaded — makes the query return
zero matches; zero matches select the no-context (fallback-prompt)
generation mode and the request still succeeds with HTTP 200 (given
that no candidate hits the uncaught-`AttributeError` case of C1); and
the vector-index query is always issued with `top_k = 10` inside the
session's namespace. -/
theorem ask_no_matches_selects_fallback (question session_id : String) (st : IndexState)
    (loads : String → ParseOutcome) (llmRaw : Mode → ℚ → String)
    (hq : question ≠ "") (hs : session_id ≠ "")
    (hben : ∀ t ∈ tempList, (loads (llmRaw (modeOf st session_id) t)).benign) :
    ((∀ p ∈ st, p.1 ≠ session_id) → queryIndex st session_id 10 = []) ∧
    (queryIndex st session_id 10 = [] →
      (ask_question question session_id st loads llmRaw).mode = some Mode.noContext ∧
      (ask_question question session_id st loads llmRaw).result.status = 200) ∧
    (ask_question question session_id st loads llmRaw).query_call =
      some { ns := session_id, top_k := 10 } := by
  obtain ⟨cs, hcs, _⟩ := candidateLoop_ok _ tempList
    (fun t ht => buildCandidate_ok_of_benign _ _ (hben t ht))
  refine ⟨?_, fun hq10 => ⟨?_, ?_⟩, ?_⟩
  · intro h
    have hfil : st.filter (fun p => p.1 == session_id) = [] := by
      rw [List.filter_eq_nil_iff]
      intro p hp
      simpa using h p hp
    simp [queryIndex, hfil]
  · rw [ask_question_eq _ _ _ _ _ hq hs, hcs]
    simp [modeOf, hq10]
  · rw [ask_question_eq _ _ _ _ _ hq hs, hcs]
    rfl
  · rw [ask_question_eq _ _ _ _ _ hq hs, hcs]

/-- Witness for C5 at a concrete request: a session id under which
nothing was ever uploaded (empty index), malformed outputs. -/
theorem ask_no_matches_selects_fallback_witness :
    queryIndex [] "s" 10 = [] ∧
    (ask_question "q" "s" [] (fun _ => ParseOutcome.decodeError)
      (fun _ _ => "x")).mode = some Mode.noContext ∧
    (ask_question "q" "s" [] (fun _ => ParseOutcome.decodeError)
      (fun _ _ => "x")).result.status = 200 ∧
    (ask_question "q" "s" [] (fun _ => ParseOutcome.decodeError)
      (fun _ _ => "x")).query_call = some { ns := "s", top_k := 10 } := by
  have T := ask_no_matches_selects_fallback "q" "s" [] (fun _ => .decodeError)
    (fun _ _ => "x") (by simp) (by simp) (fun t _ => trivial)
  exact ⟨rfl, (T.2.1 rfl).1, (T.2.1 rfl).2, T.2.2⟩

/-- C9 counterexample: in no-context mode (empty namespace) the handler
passes the parsed model output straight through, so a model that
disobeys the fallback prompt yields candidates whose `data` is NOT
null and whose `source_documents` is NOT empty — the claim that every
returned candidate has null data and empty sources is false. -/
theorem ask_no_context_output_not_enforced :
    (ask_question "q" "s" [] c9Loads (fun _ _ => "raw")).mode = some Mode.noContext ∧
    (ask_question "q" "s" [] c9Loads (fun _ _ => "raw")).result.candidatesOf =
      List.replicate 3
        { answer := .obj [("summary", .str "Certainly!"), ("data", .num 1)]
          reasoning := .str "Used the documents."
          source_documents := .arr [.str "f.pdf"] } ∧
    Json.num 1 ≠ Json.null ∧
    Json.arr [.str "f.pdf"] ≠ Json.arr [] := by
  refine ⟨rfl, rfl, fun h => Json.noConfusion h, fun h => ?_⟩
  injection h with h'
  exact List.noConfusion h'

/-- C9 amended: in no-context mode the handler selects the fallback
prompt; each returned candidate is the unvalidated per-candidate parse
of that candidate's own raw output (pass-through), and the `sources`
list of the response is empty.  Null `data`, empty `source_documents`
and a no-relevant-material `reasoning` are requested from the model by
the fallback prompt's text but not enforced by the handler. -/
theorem ask_no_context_candidates_passthrough (question session_id : String)
    (st : IndexState) (loads : String → ParseOutcome) (llmRaw : Mode → ℚ → String)
    (hq : question ≠ "") (hs : session_id ≠ "")
    (hq10 : queryIndex st session_id 10 = [])
    (hben : ∀ t ∈ tempList, (loads (llmRaw Mode.noContext t)).benign) :
    (ask_question question session_id st loads llmRaw).mode = some Mode.noContext ∧
    ∃ cands,
      (ask_question question session_id st loads llmRaw).result = .ok cands [] ∧
      List.Forall₂
        (fun t c => buildCandidate (llmRaw Mode.noContext t)
          (loads (llmRaw Mode.noContext t)) = .ok c)
        tempList cands := by
  have hmode : modeOf st session_id = Mode.noContext := by simp [modeOf, hq10]
  obtain ⟨cs, hcs, hf⟩ := candidateLoop_ok
    (fun t => buildCandidate (llmRaw Mode.noContext t) (loads (llmRaw Mode.noContext t)))
    tempList (fun t ht => buildCandidate_ok_of_benign _ _ (hben t ht))
  have heq := ask_question_eq question session_id st loads llmRaw hq hs
  rw [hmode] at heq
  rw [heq, hcs]
  refine ⟨rfl, cs, ?_, hf⟩
  simp [hq10]

/-- Witness for the amended C9 at a concrete request: empty namespace,
malformed outputs (sentinel candidates). -/
theorem ask_no_context_candidates_passthrough_witness :
    (ask_question "q" "s" [] (fun _ => ParseOutcome.decodeError)
      (fun _ _ => "x")).mode = some Mode.noContext ∧
    (ask_question "q" "s" [] (fun _ => ParseOutcome.decodeError)
      (fun _ _ => "x")).result.candidatesOf =
      [sentinelCandidate "x", sentinelCandidate "x", sentinelCandidate "x"] := by
  have T := ask_no_context_candidates_passthrough "q" "s" [] (fun _ => .decodeError)
    (fun _ _ => "x") (by simp) (by simp) rfl (fun t _ => trivial)
  exact ⟨T.1, rfl⟩

/-- C10: every frontend upload posts under a freshly generated UUID
(`new_session_id`); on a 200 response the stored session id and
processed-files list are replaced by the new ones, so subsequent
questions are asked in the new namespace — and since the UUID is fresh
(no record of any earlier upload lives under it, the `hfresh`
hypothesis), retrieval there returns nothing from earlier uploads.  A
failed upload leaves the stored state unchanged. -/
theorem upload_rotates_session (stF : FrontendState) (newId : String)
    (processed : List String) (idx : IndexState)
    (hfresh : ∀ p ∈ idx, p.1 ≠ newId) :
    (handle_file_upload stF newId (.success processed)).session_id = newId ∧
    (handle_file_upload stF newId (.success processed)).processed_files = processed ∧
    queryIndex idx newId 10 = [] ∧
    handle_file_upload stF newId .failure = stF := by
  refine ⟨rfl, rfl, ?_, rfl⟩
  have hfil : idx.filter (fun p => p.1 == newId) = [] := by
    rw [List.filter_eq_nil_iff]
    intro p hp
    simpa using hfresh p hp
  simp [queryIndex, hfil]

/-- Witness for C10: a browser session that already uploaded `a.pdf`
under session id `old` processes a new batch under fresh id `new`. -/
theorem upload_rotates_session_witness :
    (handle_file_upload ⟨"old", ["a.pdf"]⟩ "new" (.success ["b.pdf"])).session_id = "new" ∧
    (handle_file_upload ⟨"old", ["a.pdf"]⟩ "new" (.success ["b.pdf"])).processed_files = ["b.pdf"] ∧
    queryIndex [("old", ⟨"chunk_a.pdf_0", [1], "text", "a.pdf"⟩)] "new" 10 = [] ∧
    handle_file_upload ⟨"old", ["a.pdf"]⟩ "new" .failure = ⟨"old", ["a.pdf"]⟩ :=
  upload_rotates_session ⟨"old", ["a.pdf"]⟩ "new" ["b.pdf"]
    [("old", ⟨"chunk_a.pdf_0", [1], "text", "a.pdf"⟩)] (by decide)

theorem chunkCore_head? (l : List Char) : (chunkCore l).head? = some (l.take 1000) := by
  rw [chunkCore_eq]
  split
  · simp [List.take_of_length_le ‹_›]
  · simp

theorem chunkAux_length_le (f : Nat) :
    ∀ cs : List Char, cs.length ≤ 1000 + 800 * f →
      ∀ c ∈ chunkAux f cs, c.length ≤ 1000 := by
  induction f with
  | zero =>
      intro cs h c hc
      simp only [chunkAux, List.mem_singleton] at hc
      subst hc
      omega
  | succ f ih =>
      intro cs h c hc
      rw [chunkAux] at hc
      split at hc
      · simp only [List.mem_singleton] at hc
        subst hc
        omega
      · rcases hc with _ | ⟨_, hc⟩
        · simp [List.length_take]
        · exact ih (cs.drop 800) (by simp; omega) c hc

theorem chunkCore_length_le (cs : List Char) : ∀ c ∈ chunkCore cs, c.length ≤ 1000 :=
  chunkAux_length_le cs.length cs (by omega)

theorem chunkAux_chain (f : Nat) :
    ∀ cs : List Char, cs.length ≤ 1000 + 800 * f →
      List.Chain' overlapR (chunkAux f cs) := by
  induction f with
  | zero =>
      intro cs _
      simp [chunkAux]
  | succ f ih =>
      intro cs h
      rw [chunkAux]
      split
      · simp
      · rw [List.chain'_cons']
        refine ⟨?_, ih (cs.drop 800) (by simp; omega)⟩
        intro b hb
        have hrw : chunkAux f (cs.drop 800) = chunkCore (cs.drop 800) := by
          rw [chunkCore]
          exact chunkAux_congr f (cs.drop 800).length (cs.drop 800)
            (by simp; omega) (by simp; omega)
        rw [hrw, chunkCore_head?, Option.mem_def, Option.some.injEq] at hb
        subst hb
        constructor
        · rw [List.drop_take, List.take_take]
          norm_num
        · have hlen : ((cs.take 1000).drop 800).length = 200 := by
            simp only [List.length_drop, List.length_take]
            omega
          intro hnil
          rw [hnil] at hlen
          simp at hlen

theorem chunkCore_chain (cs : List Char) : List.Chain' overlapR (chunkCore cs) :=
  chunkAux_chain cs.length cs (by omega)

/-- C8: the chunker is deterministic (it is a function of the text
alone), the empty input yields the empty sequence, every chunk has at
most 1000 characters, and for texts longer than 1000 characters every
pair of consecutive chunks shares a non-empty 200-character overlap
(the last 200 characters of one chunk are the first 200 of the next). -/
theorem chunker_properties (t : String) :
    (∀ u : String, t = u → get_text_chunks t = get_text_chunks u) ∧
    (t = "" → get_text_chunks t = []) ∧
    (∀ c ∈ get_text_chunks t, c.length ≤ 1000) ∧
    (1000 < t.length →
      List.Chain' (fun a b => a.data.drop 800 = b.data.take 200 ∧ a.data.drop 800 ≠ [])
        (get_text_chunks t)) := by
  refine ⟨fun u hu => by rw [hu], fun h => by simp [h, get_text_chunks], ?_, fun hlen => ?_⟩
  · intro c hc
    rw [get_text_chunks] at hc
    split at hc
    · simp at hc
    · rw [List.mem_map] at hc
      obtain ⟨l, hl, rfl⟩ := hc
      simpa [String.length] using chunkCore_length_le t.data l hl
  · rw [get_text_chunks]
    have hne : t.data ≠ [] := by
      intro h
      rw [String.length, h] at hlen
      simp at hlen
    rw [if_neg hne, List.chain'_map]
    exact chunkCore_chain t.data

set_option maxRecDepth 200000 in
/-- Witness for C8: the empty text chunks to nothing, and a concrete
1200-character text satisfies the consecutive-overlap property. -/
theorem chunker_properties_witness :
    get_text_chunks "" = [] ∧
    List.Chain' (fun a b => a.data.drop 800 = b.data.take 200 ∧ a.data.drop 800 ≠ [])
      (get_text_chunks (String.mk (List.replicate 1200 'a'))) :=
  ⟨(chunker_properties "").2.1 rfl,
   (chunker_properties (String.mk (List.replicate 1200 'a'))).2.2.2
     (by rw [String.length_mk, List.length_replicate]; omega)⟩

theorem mem_keysOf_upsertOne_self (st : IndexState) (ns : String) (r : VectorRecord) :
    (ns, r.id) ∈ keysOf (upsertOne st ns r) := by
  induction st with
  | nil => simp [upsertOne, keysOf]
  | cons p rest ih =>
      obtain ⟨ns', r'⟩ := p
      rw [upsertOne]
      by_cases hk : ns' = ns ∧ r'.id = r.id
      · rw [if_pos hk]
        simp [keysOf]
      · rw [if_neg hk]
        simpa [keysOf] using Or.inr (by simpa [keysOf] using ih)

theorem mem_keysOf_upsertOne_mono (st : IndexState) (ns : String) (r : VectorRecord)
    (k : String × String) (h : k ∈ keysOf st) : k ∈ keysOf (upsertOne st ns r) := by
  induction st with
  | nil => simp [keysOf] at h
  | cons p rest ih =>
      obtain ⟨ns', r'⟩ := p
      rw [upsertOne]
      rcases (by simpa [keysOf] using h : k = (ns', r'.id) ∨ k ∈ keysOf rest) with hk | hk
      · by_cases hc : ns' = ns ∧ r'.id = r.id
        · rw [if_pos hc]
          simp [keysOf, hk, hc.1, hc.2]
        · rw [if_neg hc]
          simp [keysOf, hk]
      · by_cases hc : ns' = ns ∧ r'.id = r.id
        · rw [if_pos hc]
          simpa [keysOf] using Or.inr hk
        · rw [if_neg hc]
          simpa [keysOf] using Or.inr (by simpa [keysOf] using ih hk)

theorem keysOf_upsertOne_of_mem (st : IndexState) (ns : String) (r : VectorRecord)
    (h : (ns, r.id) ∈ keysOf st) : keysOf (upsertOne st ns r) = keysOf st := by
  induction st with
  | nil => simp [keysOf] at h
  | cons p rest ih =>
      obtain ⟨ns', r'⟩ := p
      rw [upsertOne]
      by_cases hk : ns' = ns ∧ r'.id = r.id
      · rw [if_pos hk]
        simp [keysOf, hk.1, hk.2]
      · rw [if_neg hk]
        rcases (by simpa [keysOf] using h :
            (ns, r.id) = (ns', r'.id) ∨ (ns, r.id) ∈ keysOf rest) with he | hm
        · exact absurd ⟨(Prod.mk.injEq .. ▸ he).1.symm, (Prod.mk.injEq .. ▸ he).2.symm⟩ hk
        · show (ns', r'.id) :: keysOf (upsertOne rest ns r) = (ns', r'.id) :: keysOf rest
          rw [ih hm]

theorem mem_keysOf_upsertBatch_mono (ns : String) (k : String × String) :
    ∀ (l : List VectorRecord) (st : IndexState), k ∈ keysOf st →
      k ∈ keysOf (upsertBatch st ns l) := by
  intro l
  induction l with
  | nil => intro st h; exact h
  | cons a l ih =>
      intro st h
      exact ih (upsertOne st ns a) (mem_keysOf_upsertOne_mono st ns a k h)

theorem mem_keysOf_upsertBatch_self (ns : String) :
    ∀ (l : List VectorRecord) (st : IndexState) (r : VectorRecord), r ∈ l →
      (ns, r.id) ∈ keysOf (upsertBatch st ns l) := by
  intro l
  induction l with
  | nil => intro st r h; simp at h
  | cons a l ih =>
      intro st r h
      rcases h with _ | ⟨_, h⟩
      · exact mem_keysOf_upsertBatch_mono ns (ns, a.id) l (upsertOne st ns a)
          (mem_keysOf_upsertOne_self st ns a)
      · exact ih (upsertOne st ns a) r h

theorem keysOf_upsertBatch_of_mem (ns : String) :
    ∀ (l : List VectorRecord) (st : IndexState),
      (∀ r ∈ l, (ns, r.id) ∈ keysOf st) →
      keysOf (upsertBatch st ns l) = keysOf st := by
  intro l
  induction l with
  | nil => intro st _; rfl
  | cons a l ih =>
      intro st h
      have ha : keysOf (upsertOne st ns a) = keysOf st :=
        keysOf_upsertOne_of_mem st ns a (h a (by simp))
      have := ih (upsertOne st ns a) (fun r hr => by
        rw [ha]
        exact h r (by simp [hr]))
      rw [show upsertBatch st ns (a :: l) = upsertBatch (upsertOne st ns a) ns l from rfl,
        this, ha]

theorem upsertBatch_append (ns : String) (st : IndexState) (l l' : List VectorRecord) :
    upsertBatch st ns (l ++ l') = upsertBatch (upsertBatch st ns l) ns l' := by
  simp [upsertBatch]

theorem upsertBatches_no_fail (ns : String) :
    ∀ (bs : List (List VectorRecord)) (st : IndexState) (bi : Nat),
      upsertBatches ns [] st bi bs = upsertBatch st ns bs.flatten := by
  intro bs
  induction bs with
  | nil => intro st bi; rfl
  | cons b bs ih =>
      intro st bi
      rw [upsertBatches, if_neg (by simp), ih, List.flatten_cons, upsertBatch_append]

theorem toBatchesAux_flatten :
    ∀ (f : Nat) (l : List VectorRecord), l.length ≤ f → (toBatchesAux f l).flatten = l := by
  intro f
  induction f with
  | zero =>
      intro l h
      rw [List.eq_nil_of_length_eq_zero (Nat.le_zero.mp h)]
      rfl
  | succ f ih =>
      intro l h
      cases l with
      | nil => rfl
      | cons x xs =>
          simp only [toBatchesAux, List.flatten_cons]
          rw [ih ((x :: xs).drop 100) (by simp at h ⊢; omega), List.take_append_drop]

theorem toBatches_flatten (l : List VectorRecord) : (toBatches l).flatten = l :=
  toBatchesAux_flatten l.length l le_rfl

/-- Applying `create_and_store_embeddings` with no failed batch upserts
every record in order. -/
theorem create_and_store_no_fail (text_chunks : List String) (ns filename : String)
    (st : IndexState) (embs : List (List Int)) :
    create_and_store_embeddings text_chunks ns filename st (.ok embs) [] =
      .ok (upsertBatch st ns (mkVectors filename 0 text_chunks embs), none) := by
  rw [create_and_store_embeddings]
  rw [upsertBatches_no_fail, toBatches_flatten]

theorem mem_mkVectors_id (f : String) :
    ∀ (cs : List String) (i : Nat) (es : List (List Int)) (r : VectorRecord),
      r ∈ mkVectors f i cs es →
      ∃ j, j < min cs.length es.length ∧ r.id = "chunk_" ++ f ++ "_" ++ toString (i + j) := by
  intro cs
  induction cs with
  | nil => intro i es r h; simp [mkVectors] at h
  | cons c cs ih =>
      intro i es r h
      cases es with
      | nil => simp [mkVectors] at h
      | cons e es =>
          rw [mkVectors] at h
          rcases h with _ | ⟨_, h⟩
          · exact ⟨0, by simp, by simp⟩
          · obtain ⟨j, hj, hid⟩ := ih (i + 1) es r h
            exact ⟨j + 1, by simp at hj ⊢; omega, by rw [hid]; ring_nf⟩

theorem mkVectors_id_mem (f : String) :
    ∀ (cs : List String) (i : Nat) (es : List (List Int)) (j : Nat),
      j < min cs.length es.length →
      ∃ r ∈ mkVectors f i cs es, r.id = "chunk_" ++ f ++ "_" ++ toString (i + j) := by
  intro cs
  induction cs with
  | nil => intro i es j h; simp at h
  | cons c cs ih =>
      intro i es j h
      cases es with
      | nil => simp at h
      | cons e es =>
          cases j with
          | zero => exact ⟨_, by rw [mkVectors]; exact List.mem_cons_self .., by simp⟩
          | succ j =>
              obtain ⟨r, hr, hid⟩ := ih (i + 1) es j (by simp at h ⊢; omega)
              exact ⟨r, by rw [mkVectors]; exact List.mem_cons_of_mem _ hr,
                by rw [hid]; ring_nf⟩

theorem mkVectors_length (f : String) :
    ∀ (cs : List String) (i : Nat) (es : List (List Int)),
      (mkVectors f i cs es).length = min cs.length es.length := by
  intro cs
  induction cs with
  | nil => intro i es; simp [mkVectors]
  | cons c cs ih =>
      intro i es
      cases es with
      | nil => simp [mkVectors]
      | cons e es =>
          rw [mkVectors]
          simp [ih (i + 1) es]
          omega

/-- C6: identifiers are `"chunk_" ++ filename ++ "_" ++ i` derived from
the filename and chunk index alone, and ingesting the same
(namespace, filename, content) twice (each embedding call returning one
vector per chunk, no failed batch) leaves the index with exactly the
same `(namespace, id)` keys as ingesting it once: the second pass only
overwrites, never appends. -/
theorem reingest_idempotent_ids (text ns f : String) (st st1 st2 : IndexState)
    (embs1 embs2 : List (List Int))
    (h1 : embs1.length = (get_text_chunks text).length)
    (h2 : embs2.length = (get_text_chunks text).length)
    (hing1 : create_and_store_embeddings (get_text_chunks text) ns f st
      (.ok embs1) [] = .ok (st1, none))
    (hing2 : create_and_store_embeddings (get_text_chunks text) ns f st1
      (.ok embs2) [] = .ok (st2, none)) :
    keysOf st2 = keysOf st1 ∧
    (∀ r ∈ mkVectors f 0 (get_text_chunks text) embs1,
      ∃ j, j < (get_text_chunks text).length ∧
        r.id = "chunk_" ++ f ++ "_" ++ toString j) := by
  rw [create_and_store_no_fail] at hing1 hing2
  injection hing1 with hp1
  injection hp1 with hst1 _
  injection hing2 with hp2
  injection hp2 with hst2 _
  subst hst1
  subst hst2
  constructor
  · apply keysOf_upsertBatch_of_mem
    intro r hr
    obtain ⟨j, hj, hid⟩ := mem_mkVectors_id f (get_text_chunks text) 0 embs2 r hr
    obtain ⟨r', hr', hid'⟩ := mkVectors_id_mem f (get_text_chunks text) 0 embs1 j
      (by omega)
    rw [hid, ← hid']
    exact mem_keysOf_upsertBatch_self ns _ st r' hr'
  · intro r hr
    obtain ⟨j, hj, hid⟩ := mem_mkVectors_id f (get_text_chunks text) 0 embs1 r hr
    exact ⟨j, by omega, by simpa using hid⟩

/-- Witness for C6: the text `"hi"` (one chunk) ingested twice into an
empty index under namespace `s`; the second pass overwrites the single
record in place. -/
theorem reingest_idempotent_ids_witness :
    keysOf [("s", ⟨"chunk_f_0", [2], "hi", "f"⟩)] =
      keysOf [("s", ⟨"chunk_f_0", [1], "hi", "f"⟩)] :=
  (reingest_idempotent_ids "hi" "s" "f" [] [("s", ⟨"chunk_f_0", [1], "hi", "f"⟩)]
    [("s", ⟨"chunk_f_0", [2], "hi", "f"⟩)] [[1]] [[2]] rfl rfl rfl rfl).1

theorem toDigitsCore_append_inv :
    ∀ (fuel n : Nat) (ds : List Char),
      Nat.toDigitsCore 10 fuel n ds = Nat.toDigitsCore 10 fuel n [] ++ ds := by
  intro fuel
  induction fuel with
  | zero => intro n ds; rfl
  | succ fuel ih =>
      intro n ds
      simp only [Nat.toDigitsCore]
      by_cases h : n / 10 = 0
      · rw [if_pos h, if_pos h]
        rfl
      · rw [if_neg h, if_neg h, ih (n / 10) (Nat.digitChar (n % 10) :: ds),
          ih (n / 10) [Nat.digitChar (n % 10)], List.append_assoc]
        rfl

theorem valFrom_append (a : Nat) (xs ys : List Char) :
    valFrom a (xs ++ ys) = valFrom (valFrom a xs) ys := by
  simp [valFrom, List.foldl_append]

theorem valDigit_digitChar : ∀ m, m < 10 → valDigit (Nat.digitChar m) = m := by decide

theorem valFrom_toDigitsCore :
    ∀ (fuel n : Nat), n < 10 ^ fuel →
      valFrom 0 (Nat.toDigitsCore 10 fuel n []) = n := by
  intro fuel
  induction fuel with
  | zero =>
      intro n h
      simp only [pow_zero, Nat.lt_one_iff] at h
      subst h
      rfl
  | succ fuel ih =>
      intro n h
      simp only [Nat.toDigitsCore]
      by_cases hdiv : n / 10 = 0
      · rw [if_pos hdiv]
        have hn : n < 10 := by omega
        show valFrom 0 [Nat.digitChar (n % 10)] = n
        simp only [valFrom, List.foldl_cons, List.foldl_nil, Nat.zero_mul, Nat.zero_add]
        rw [valDigit_digitChar (n % 10) (by omega)]
        omega
      · rw [if_neg hdiv, toDigitsCore_append_inv, valFrom_append,
          ih (n / 10) (by rw [pow_succ] at h; exact Nat.div_lt_iff_lt_mul (by omega) |>.mpr h)]
        simp only [valFrom, List.foldl_cons, List.foldl_nil]
        rw [valDigit_digitChar (n % 10) (by omega)]
        omega

theorem lt_ten_pow_succ (n : Nat) : n < 10 ^ (n + 1) :=
  lt_of_lt_of_le (Nat.lt_pow_self (by norm_num) n)
    (Nat.pow_le_pow_right (by norm_num) (Nat.le_succ n))

theorem natToString_inj (m n : Nat) (h : toString m = toString n) : m = n := by
  have hm : Nat.repr m = Nat.repr n := h
  have h2 : Nat.toDigitsCore 10 (m + 1) m [] = Nat.toDigitsCore 10 (n + 1) n [] := by
    simpa [Nat.repr, Nat.toDigits, List.asString] using congrArg String.data hm
  have h3 := congrArg (valFrom 0) h2
  rwa [valFrom_toDigitsCore (m + 1) m (lt_ten_pow_succ m),
    valFrom_toDigitsCore (n + 1) n (lt_ten_pow_succ n)] at h3

theorem string_append_cancel_left (s t u : String) (h : s ++ t = s ++ u) : t = u := by
  have hd : s.data ++ t.data = s.data ++ u.data := congrArg String.data h
  have h2 := List.append_cancel_left hd
  cases t
  cases u
  exact congrArg String.mk h2

theorem chunkId_inj (f : String) (i j : Nat)
    (h : "chunk_" ++ f ++ "_" ++ toString i = "chunk_" ++ f ++ "_" ++ toString j) :
    i = j :=
  natToString_inj i j (string_append_cancel_left ("chunk_" ++ f ++ "_") _ _ h)

theorem mkVectors_ids_nodup (f : String) :
    ∀ (cs : List String) (i : Nat) (es : List (List Int)),
      ((mkVectors f i cs es).map VectorRecord.id).Nodup := by
  intro cs
  induction cs with
  | nil => intro i es; simp [mkVectors]
  | cons c cs ih =>
      intro i es
      cases es with
      | nil => simp [mkVectors]
      | cons e es =>
          rw [mkVectors]
          simp only [List.map_cons, List.nodup_cons]
          refine ⟨?_, ih (i + 1) es⟩
          intro hmem
          rw [List.mem_map] at hmem
          obtain ⟨r, hr, hid⟩ := hmem
          obtain ⟨j, _, hidj⟩ := mem_mkVectors_id f cs (i + 1) es r hr
          rw [hidj] at hid
          have := chunkId_inj f (i + 1 + j) i hid
          omega

theorem upsertOne_of_not_mem (st : IndexState) (ns : String) (r : VectorRecord)
    (h : (ns, r.id) ∉ keysOf st) : upsertOne st ns r = st ++ [(ns, r)] := by
  induction st with
  | nil => rfl
  | cons p rest ih =>
      obtain ⟨ns', r'⟩ := p
      simp only [keysOf, List.map_cons, List.mem_cons, not_or] at h
      rw [upsertOne, if_neg (fun hc => h.1 (by simp [hc.1, hc.2]))]
      rw [ih (by simpa [keysOf] using h.2)]
      rfl

theorem upsertBatch_of_fresh (ns : String) :
    ∀ (l : List VectorRecord) (st : IndexState),
      (l.map VectorRecord.id).Nodup →
      (∀ r ∈ l, (ns, r.id) ∉ keysOf st) →
      upsertBatch st ns l = st ++ l.map (fun r => (ns, r)) := by
  intro l
  induction l with
  | nil => intro st _ _; simp [upsertBatch]
  | cons a l ih =>
      intro st hnodup hfresh
      simp only [List.map_cons, List.nodup_cons] at hnodup
      have h1 : upsertOne st ns a = st ++ [(ns, a)] :=
        upsertOne_of_not_mem st ns a (hfresh a (by simp))
      have hfresh2 : ∀ r ∈ l, (ns, r.id) ∉ keysOf (st ++ [(ns, a)]) := by
        intro r hr hm
        rw [keysOf, List.map_append, List.mem_append] at hm
        rcases hm with hm | hm
        · exact hfresh r (List.mem_cons_of_mem a hr) (by simpa [keysOf] using hm)
        · have hid : r.id = a.id := by simpa [keysOf] using hm
          exact hnodup.1 (hid ▸ List.mem_map_of_mem VectorRecord.id hr)
      show upsertBatch (upsertOne st ns a) ns l = _
      rw [h1, ih (st ++ [(ns, a)]) hnodup.2 hfresh2]
      simp

theorem toBatches_decomp_250 (l : List VectorRecord) (h : l.length = 250) :
    toBatches l =
      [l.take 100, (l.drop 100).take 100, ((l.drop 100).drop 100).take 100] := by
  have h1 : l ≠ [] := by
    intro hn
    rw [hn] at h
    simp at h
  rw [toBatches_eq, if_neg h1]
  have hd1 : (l.drop 100).length = 150 := by simp [h]
  have h2 : l.drop 100 ≠ [] := by
    intro hn
    rw [hn] at hd1
    simp at hd1
  rw [toBatches_eq, if_neg h2]
  have hd2 : ((l.drop 100).drop 100).length = 50 := by simp [h]
  have h3 : (l.drop 100).drop 100 ≠ [] := by
    intro hn
    rw [hn] at hd2
    simp at hd2
  rw [toBatches_eq, if_neg h3]
  have hd3 : (((l.drop 100).drop 100).drop 100).length = 0 := by simp [h]
  rw [toBatches_eq, if_pos (List.eq_nil_of_length_eq_zero hd3)]

/-- For any 250 chunks and 250 embeddings ingested into an empty
index with the second of the three upsert batches failing, exactly the
150 records of the first and third batches are stored. -/
theorem stored_count_250 (chunks : List String) (ns f : String)
    (embs : List (List Int)) (hc : chunks.length = 250) (he : embs.length = 250) :
    (ingestState (create_and_store_embeddings chunks ns f [] (.ok embs) [1])).length
      = 150 := by
  have hv : (mkVectors f 0 chunks embs).length = 250 := by
    rw [mkVectors_length, hc, he]
    omega
  have hids := mkVectors_ids_nodup f chunks 0 embs
  show (upsertBatches ns [1] [] 0 (toBatches (mkVectors f 0 chunks embs))).length = 150
  generalize hvdef : mkVectors f 0 chunks embs = v at hv hids ⊢
  rw [toBatches_decomp_250 v hv]
  have hm0 : ¬ (0 : Nat) ∈ [1] := by simp
  have hm1 : (1 : Nat) ∈ [1] := by simp
  have hm2 : ¬ (2 : Nat) ∈ [1] := by simp
  simp only [upsertBatches, if_neg hm0, if_pos hm1, if_neg hm2]
  have hb0 : upsertBatch [] ns (v.take 100) =
      [] ++ (v.take 100).map (fun r => (ns, r)) :=
    upsertBatch_of_fresh ns (v.take 100) []
      (by rw [List.map_take]; exact ((v.map VectorRecord.id).take_sublist 100).nodup hids)
      (by intro r _ hm; simp [keysOf] at hm)
  rw [hb0]
  have hkeys : keysOf ([] ++ (v.take 100).map (fun r => (ns, r))) =
      ((v.map VectorRecord.id).take 100).map (fun i => (ns, i)) := by
    simp [keysOf, List.map_map, List.map_take]
    rfl
  have hb2 : upsertBatch ([] ++ (v.take 100).map (fun r => (ns, r))) ns
      (((v.drop 100).drop 100).take 100) =
      ([] ++ (v.take 100).map (fun r => (ns, r))) ++
        (((v.drop 100).drop 100).take 100).map (fun r => (ns, r)) := by
    apply upsertBatch_of_fresh
    · rw [List.map_take, List.map_drop, List.map_drop, List.drop_drop]
      exact (((v.map VectorRecord.id).drop (100 + 100)).take_sublist 100).nodup
        (((v.map VectorRecord.id).drop_sublist (100 + 100)).nodup hids)
    · intro r hr hm
      rw [hkeys, List.mem_map] at hm
      obtain ⟨i, hi, heq⟩ := hm
      have hrid : r.id = i := by
        have h2 := (Prod.mk.injEq .. ▸ heq).2
        exact h2.symm
      have hr2 : r.id ∈ (v.map VectorRecord.id).drop 200 := by
        have h3 : r.id ∈ (((v.drop 100).drop 100).take 100).map VectorRecord.id :=
          List.mem_map_of_mem VectorRecord.id hr
        rw [List.map_take, List.map_drop, List.map_drop, List.drop_drop] at h3
        exact List.take_subset 100 _ h3
      exact (List.disjoint_take_drop hids (by omega)) (hrid ▸ hi) hr2
  rw [hb2]
  simp only [List.nil_append, List.length_append, List.length_map, List.length_take,
    List.length_drop, hv]
  omega

/-- C3 counterexample: for 250 chunks with the second batch failing,
150 chunks are indeed stored (not 250 and not 0) — but the ingest call
returns `None` (the Python function has no `return` statement), not
the count 150: the number of successfully stored chunks is not
surfaced to the caller. -/
theorem ingest_count_not_returned :
    (ingestState c3Result).length = 150 ∧
    ingestReturn c3Result = none ∧
    ingestReturn c3Result ≠ some 150 := by
  refine ⟨stored_count_250 (List.replicate 250 "c") "s" "f" (List.replicate 250 [1])
    (by rw [List.length_replicate]) (by rw [List.length_replicate]), rfl, fun h => ?_⟩
  rw [show ingestReturn c3Result = none from rfl] at h
  exact Option.noConfusion h

theorem toBatches_map_length_250 (l : List VectorRecord) (h : l.length = 250) :
    (toBatches l).map List.length = [100, 100, 50] := by
  have h1 : l ≠ [] := by
    intro hn
    rw [hn] at h
    simp at h
  rw [toBatches_eq, if_neg h1]
  have hd1 : (l.drop 100).length = 150 := by simp [h]
  have h2 : l.drop 100 ≠ [] := by
    intro hn
    rw [hn] at hd1
    simp at hd1
  rw [toBatches_eq, if_neg h2]
  have hd2 : ((l.drop 100).drop 100).length = 50 := by simp [h]
  have h3 : (l.drop 100).drop 100 ≠ [] := by
    intro hn
    rw [hn] at hd2
    simp at hd2
  rw [toBatches_eq, if_neg h3]
  have hd3 : (((l.drop 100).drop 100).drop 100).length = 0 := by simp [h]
  rw [toBatches_eq, if_pos (List.eq_nil_of_length_eq_zero hd3)]
  simp [List.length_take, hd1, hd2, h]

/-- C3 amended: upsert proceeds in batches of size 100 (250 records
split as 100/100/50); a failed batch is skipped rather than failing
the whole ingestion (the call returns normally for every
failed-batch pattern); but the stored-chunk count is not surfaced: the
function returns `None`. -/
theorem ingest_partial_batches_return_none (text_chunks : List String) (ns f : String)
    (st : IndexState) (embs : List (List Int)) (failBatches : List Nat) :
    (∃ stv, create_and_store_embeddings text_chunks ns f st (.ok embs) failBatches
      = .ok stv) ∧
    ingestReturn (create_and_store_embeddings text_chunks ns f st (.ok embs)
      failBatches) = none ∧
    (text_chunks.length = 250 → embs.length = 250 →
      (toBatches (mkVectors f 0 text_chunks embs)).map List.length = [100, 100, 50]) := by
  refine ⟨⟨_, rfl⟩, rfl, fun hc he => ?_⟩
  apply toBatches_map_length_250
  rw [mkVectors_length, hc, he]
  omega

/-- Witness for the amended C3 at the 250-chunk scenario. -/
theorem ingest_partial_batches_return_none_witness :
    ingestReturn (create_and_store_embeddings (List.replicate 250 "c") "s" "f" []
      (.ok (List.replicate 250 [1])) [1]) = none ∧
    (toBatches (mkVectors "f" 0 (List.replicate 250 "c") (List.replicate 250 [1]))).map
      List.length = [100, 100, 50] := by
  have T := ingest_partial_batches_return_none (List.replicate 250 "c") "s" "f" []
    (List.replicate 250 [1]) [1]
  exact ⟨T.2.1, T.2.2 (by rw [List.length_replicate]) (by rw [List.length_replicate])⟩

theorem get_text_from_file_of_ok (f : UFile) (s : String) (h : f.loader = .ok s) :
    get_text_from_file f.filename f.loader =
      if f.isSupported then .ok (some s) else .ok none := by
  rw [get_text_from_file.eq_def, h]
  by_cases hs : lowerString (extOf f.filename) ∈ supportedExts
  · rw [if_pos hs, if_pos (by simp [UFile.isSupported, hs])]
  · rw [if_neg hs, if_neg (by simp [UFile.isSupported, hs])]

theorem uploadLoop_cons (sid : String) (f : UFile) (rest : List UFile)
    (st : IndexState) (acc : List String) :
    uploadLoop sid st acc (f :: rest) =
      match get_text_from_file f.filename f.loader with
      | Except.error _ => (st, Except.error ())
      | Except.ok none => uploadLoop sid st acc rest
      | Except.ok (some raw_text) =>
          match create_and_store_embeddings (get_text_chunks raw_text) sid
              f.filename st f.embedResult f.failBatches with
          | Except.error _ => (st, Except.error ())
          | Except.ok (st', _) => uploadLoop sid st' (acc ++ [f.filename]) rest := rfl

theorem uploadLoop_cons_unsupported (sid : String) (f : UFile) (rest : List UFile)
    (st : IndexState) (acc : List String) (s : String)
    (hl : f.loader = .ok s) (hsup : f.isSupported = false) :
    uploadLoop sid st acc (f :: rest) = uploadLoop sid st acc rest := by
  rw [uploadLoop_cons, get_text_from_file_of_ok f s hl, if_neg (by simp [hsup])]

theorem uploadLoop_cons_ok (sid : String) (f : UFile) (rest : List UFile)
    (st : IndexState) (acc : List String) (s : String) (e : List (List Int))
    (hl : f.loader = .ok s) (he : f.embedResult = .ok e)
    (hsup : f.isSupported = true) :
    uploadLoop sid st acc (f :: rest) =
      uploadLoop sid
        (upsertBatches sid f.failBatches st 0
          (toBatches (mkVectors f.filename 0 (get_text_chunks s) e)))
        (acc ++ [f.filename]) rest := by
  rw [uploadLoop_cons, get_text_from_file_of_ok f s hl, if_pos hsup]
  show (match create_and_store_embeddings (get_text_chunks s) sid
      f.filename st f.embedResult f.failBatches with
    | Except.error _ => (st, Except.error ())
    | Except.ok (st', _) => uploadLoop sid st' (acc ++ [f.filename]) rest) = _
  rw [he]
  rfl

theorem uploadLoop_cons_embed_error (sid : String) (f : UFile) (rest : List UFile)
    (st : IndexState) (acc : List String) (s : String)
    (hl : f.loader = .ok s) (hsup : f.isSupported = true)
    (he : f.embedResult = .error ()) :
    uploadLoop sid st acc (f :: rest) = (st, .error ()) := by
  rw [uploadLoop_cons, get_text_from_file_of_ok f s hl, if_pos hsup]
  show (match create_and_store_embeddings (get_text_chunks s) sid
      f.filename st f.embedResult f.failBatches with
    | Except.error _ => (st, Except.error ())
    | Except.ok (st', _) => uploadLoop sid st' (acc ++ [f.filename]) rest) = _
  rw [he]
  rfl

theorem uploadLoop_benign (session_id : String) :
    ∀ (files : List UFile) (st : IndexState) (acc : List String),
      (∀ f ∈ files, UFile.benign f) →
      (uploadLoop session_id st acc files).2 =
        .ok (acc ++ (files.filter UFile.isSupported).map UFile.filename) := by
  intro files
  induction files with
  | nil => intro st acc _; simp [uploadLoop]
  | cons f rest ih =>
      intro st acc hben
      obtain ⟨⟨s, hl⟩, ⟨e, he⟩⟩ := hben f (by simp)
      by_cases hsup : f.isSupported = true
      · rw [uploadLoop_cons_ok session_id f rest st acc s e hl he hsup,
          ih _ _ (fun g hg => hben g (by simp [hg]))]
        simp [List.filter_cons, hsup]
      · rw [uploadLoop_cons_unsupported session_id f rest st acc s hl
            (by simpa using hsup),
          ih st acc (fun g hg => hben g (by simp [hg]))]
        simp [List.filter_cons, hsup]

theorem uploadLoop_abort (session_id : String) (bad : UFile) (post : List UFile)
    (hbadsup : bad.isSupported = true)
    (hbadload : ∃ s, bad.loader = .ok s)
    (hbademb : bad.embedResult = .error ()) :
    ∀ (pre : List UFile) (st : IndexState) (acc : List String),
      (∀ f ∈ pre, UFile.benign f) →
      uploadLoop session_id st acc (pre ++ bad :: post) =
        ((uploadLoop session_id st acc pre).1, .error ()) := by
  intro pre
  induction pre with
  | nil =>
      intro st acc _
      obtain ⟨s, hl⟩ := hbadload
      rw [List.nil_append,
        uploadLoop_cons_embed_error session_id bad post st acc s hl hbadsup hbademb]
      rfl
  | cons f pre ih =>
      intro st acc hben
      obtain ⟨⟨s, hl⟩, ⟨e, he⟩⟩ := hben f (by simp)
      rw [List.cons_append]
      by_cases hsup : f.isSupported = true
      · rw [uploadLoop_cons_ok session_id f _ st acc s e hl he hsup,
          uploadLoop_cons_ok session_id f pre st acc s e hl he hsup]
        exact ih _ _ (fun g hg => hben g (by simp [hg]))
      · rw [uploadLoop_cons_unsupported session_id f _ st acc s hl
            (by simpa using hsup),
          uploadLoop_cons_unsupported session_id f pre st acc s hl
            (by simpa using hsup)]
        exact ih st acc (fun g hg => hben g (by simp [hg]))

/-- C2 counterexample: uploading `[good.txt, bad.txt, other.txt]` where
`bad.txt`'s embedding call raises returns a 500 and stores only
`good.txt`'s chunk — `other.txt` is never processed, so a failure in
one file DOES block the processing of the remaining files (while the
already-upserted `good.txt` chunk is indeed kept). -/
theorem upload_failure_blocks_remaining :
    (upload_documents [c2File1, c2File2, c2File3] "s" []).2 =
      UploadResult.serverError ∧
    keysOf (upload_documents [c2File1, c2File2, c2File3] "s" []).1 =
      [("s", "chunk_good.txt_0")] :=
  ⟨rfl, rfl⟩

/-- C2 amended: an upsert batch failure is confined to that batch —
with extraction and embedding succeeding, the upload succeeds and
processes every file whatever the batch-failure pattern; but a
text-extraction or embedding failure in one file aborts the request
with a server error, leaving the remaining files unprocessed, while
files already upserted stay in the index (no rollback: the final index
state is exactly the state reached after the files preceding the
failing one). -/
theorem upload_isolation_amended (session_id : String) (st : IndexState)
    (files pre post : List UFile) (bad : UFile)
    (hs : session_id ≠ "")
    (hfiles : files ≠ [])
    (hben : ∀ f ∈ files, UFile.benign f)
    (hpre : ∀ f ∈ pre, UFile.benign f)
    (hbadsup : bad.isSupported = true)
    (hbadload : ∃ s, bad.loader = .ok s)
    (hbademb : bad.embedResult = .error ()) :
    (upload_documents files session_id st).2 =
      .ok ((files.filter UFile.isSupported).map UFile.filename) ∧
    upload_documents (pre ++ bad :: post) session_id st =
      ((uploadLoop session_id st [] pre).1, .serverError) := by
  constructor
  · rw [upload_documents.eq_def, if_neg (by simp [hs, hfiles])]
    have h2 := uploadLoop_benign session_id files st [] hben
    rcases hup : uploadLoop session_id st [] files with ⟨st2, r⟩
    rw [hup] at h2
    simp only at h2
    rw [h2]
    simp
  · rw [upload_documents.eq_def, if_neg (by simp [hs]),
      uploadLoop_abort session_id bad post hbadsup hbadload hbademb pre st [] hpre]

/-- Witness for the amended C2: part one at the clean pair
`[good.txt, other.txt]` with the second file's sole upsert batch
failing, part two at `[good.txt] ++ bad.txt :: [other.txt]`. -/
theorem upload_isolation_amended_witness :
    (upload_documents [c2File1, ⟨"other.txt", .ok "gamma", .ok [[1]], [0]⟩]
      "s" []).2 = .ok ((([c2File1, ⟨"other.txt", .ok "gamma", .ok [[1]], [0]⟩]).filter
        UFile.isSupported).map UFile.filename) ∧
    upload_documents ([c2File1] ++ c2File2 :: [c2File3]) "s" [] =
      ((uploadLoop "s" [] [] [c2File1]).1, .serverError) :=
  upload_isolation_amended "s" [] [c2File1, ⟨"other.txt", .ok "gamma", .ok [[1]], [0]⟩]
    [c2File1] [c2File3] c2File2 (by simp) (by simp)
    (by intro f hf
        simp only [List.mem_cons, List.not_mem_nil, or_false] at hf
        rcases hf with rfl | rfl
        · exact ⟨⟨"alpha", rfl⟩, ⟨[[1]], rfl⟩⟩
        · exact ⟨⟨"gamma", rfl⟩, ⟨[[1]], rfl⟩⟩)
    (by intro f hf
        simp only [List.mem_cons, List.not_mem_nil, or_false] at hf
        rcases hf with rfl
        exact ⟨⟨"alpha", rfl⟩, ⟨[[1]], rfl⟩⟩)
    (by decide) ⟨"beta", rfl⟩ rfl

/-- C4 counterexample: an empty `.txt` file is NOT skipped — its
extracted text is `""`, which is not `None`, so the handler chunks it
to zero chunks, stores nothing, and still reports the file in the
processed-files list of the 200 response; the claim that an empty
file's name is excluded from that list is false. -/
theorem upload_empty_file_not_skipped :
    (upload_documents [c4Empty] "s" []).2 = UploadResult.ok ["empty.txt"] ∧
    (upload_documents [c4Empty] "s" []).1 = [] :=
  ⟨rfl, rfl⟩

/-- C4 amended: with every loader and embedding call returning, the
upload succeeds and its processed-files list is exactly the uploaded
files of supported extension, in order: an unsupported-format file is
skipped without raising (and, when no supported file shares its name,
its name is absent from the list) while the remaining files continue;
but a file whose extracted text is EMPTY is a supported file, so it is
processed and its name IS included in the list. -/
theorem upload_unsupported_skipped_empty_included (session_id : String)
    (st : IndexState) (files : List UFile)
    (hs : session_id ≠ "") (hfiles : files ≠ [])
    (hben : ∀ f ∈ files, UFile.benign f) :
    (upload_documents files session_id st).2 =
      .ok ((files.filter UFile.isSupported).map UFile.filename) ∧
    (∀ f ∈ files, f.isSupported = false →
      (∀ g ∈ files, g.filename = f.filename → g.isSupported = false) →
      f.filename ∉ (files.filter UFile.isSupported).map UFile.filename) ∧
    (∀ f ∈ files, f.isSupported = true →
      f.filename ∈ (files.filter UFile.isSupported).map UFile.filename) := by
  refine ⟨?_, ?_, ?_⟩
  · rw [upload_documents.eq_def, if_neg (by simp [hs, hfiles])]
    have h2 := uploadLoop_benign session_id files st [] hben
    rcases hup : uploadLoop session_id st [] files with ⟨st2, r⟩
    rw [hup] at h2
    simp only at h2
    rw [h2]
    simp
  · intro f _ _ hall hmem
    rw [List.mem_map] at hmem
    obtain ⟨g, hgfil, heq⟩ := hmem
    rw [List.mem_filter] at hgfil
    exact absurd hgfil.2 (by simp [hall g hgfil.1 heq])
  · intro f hf hsup
    exact List.mem_map.mpr ⟨f, List.mem_filter.mpr ⟨hf, hsup⟩, rfl⟩

/-- Witness for the amended C4: an unsupported `.xyz` file followed by
an empty `.txt` file; the processed list contains exactly
`empty.txt`. -/
theorem upload_unsupported_skipped_empty_included_witness :
    ((upload_documents [c4Unsupported, c4Empty] "s" []).2 =
      .ok ((([c4Unsupported, c4Empty]).filter UFile.isSupported).map UFile.filename)) ∧
    "notes.xyz" ∉ (([c4Unsupported, c4Empty]).filter UFile.isSupported).map
      UFile.filename ∧
    "empty.txt" ∈ (([c4Unsupported, c4Empty]).filter UFile.isSupported).map
      UFile.filename := by
  have T := upload_unsupported_skipped_empty_included "s" [] [c4Unsupported, c4Empty]
    (by simp) (by simp)
    (by intro f hf
        simp only [List.mem_cons, List.not_mem_nil, or_false] at hf
        rcases hf with rfl | rfl
        · exact ⟨⟨"text", rfl⟩, ⟨[[1]], rfl⟩⟩
        · exact ⟨⟨"", rfl⟩, ⟨[], rfl⟩⟩)
  refine ⟨T.1, ?_, ?_⟩
  · exact T.2.1 c4Unsupported (by simp) (by decide)
      (by intro g hg
          simp only [List.mem_cons, List.not_mem_nil, or_false] at hg
          rcases hg with rfl | rfl
          · intro _
            decide
          · intro habs
            exact absurd habs (by decide))
  · exact T.2.2 c4Empty (by simp) (by decide)

end RagChatbot
